import Mathlib

/-!
Verification of the condition-expression evaluator of `pg_requests/operators.py`:
the `Operand` / `ConditionOperator` (`And` / `Or`) / `QueryObject` (`Q`) /
`FieldObject` (`F`) classes, the dict-shorthand condition parser
(`parse_dict_condition`), the recursive condition-tree flattener
(`parse_conditions`) and the `|` / `&` combinators.

Python dynamic values are embedded as the inductive `PyVal` (ints, strings,
booleans, `FieldObject` instances and lists); Python dicts are embedded as
association lists in insertion order (CPython dicts preserve insertion order);
Python tuples and lists of conditions are both embedded as `CondList`
(the source treats them identically via `isinstance(conditions, (list, tuple))`).
Exceptions are embedded as `Except` errors carrying the data the source
interpolates into the exception message.
-/

namespace PgRequests

/-- FieldObject (`F`) from the source: wraps a raw expression string `_value`.
`FieldObject.eval` returns `self._value`. -/
structure FieldObject where
  value : String
deriving DecidableEq

/-- Embedding of the Python values that can appear as condition values or
as right-hand sides of `FieldObject` arithmetic.  A `FieldObject` value
carries the `id()`-address of the Python object, which is observable only
through Python default stringification (`FieldObject` defines no
`__str__`/`__repr__`). -/
inductive PyVal where
  | int (n : Int)
  | str (s : String)
  | bool (b : Bool)
  | field (f : FieldObject) (addr : Nat)
  | list (vs : List PyVal)

/-- Lowercase hexadecimal rendering of a natural number, as CPython uses for
object addresses in default `repr`. -/
def natHex (n : Nat) : String := String.mk (Nat.toDigits 16 n)

mutual
/-- Python `repr()` on the embedded values.  `FieldObject` defines no
`__repr__`, so CPython falls back to the default
`<module.Class object at 0xADDR>` rendering.  (String escaping inside
`repr` of strings is elided: the embedded strings are plain.) -/
def pyRepr : PyVal → String
  | .int n => toString n
  | .str s => "\x27" ++ s ++ "\x27"
  | .bool b => if b then "True" else "False"
  | .field _ addr =>
      "<pg_requests.operators.FieldObject object at 0x" ++ natHex addr ++ ">"
  | .list vs => "[" ++ pyReprJoin vs ++ "]"

/-- Comma-joined `repr()`s of a list's elements, as in Python list `repr`. -/
def pyReprJoin : List PyVal → String
  | [] => ""
  | [v] => pyRepr v
  | v :: rest => pyRepr v ++ ", " ++ pyReprJoin rest
end

/-- Python `str()` on the embedded values: identical to `repr()` except on
strings, which render raw. -/
def pyStr : PyVal → String
  | .str s => s
  | v => pyRepr v

/-- Python `type(x)` rendering for the embedded values, as interpolated by
`%s`-formatting of `type(conditions)` in the source's error message. -/
def pyTypeName : PyVal → String
  | .int _ => "<class \x27int\x27>"
  | .str _ => "<class \x27str\x27>"
  | .bool _ => "<class \x27bool\x27>"
  | .field _ _ => "<class \x27pg_requests.operators.FieldObject\x27>"
  | .list _ => "<class \x27list\x27>"

/-- Test used by `Operand.eval`: `isinstance(self.value, FieldObject)`. -/
def PyVal.isField : PyVal → Bool
  | .field _ _ => true
  | _ => false

/-- Result of `Operand.eval`: either the raw condition value, or the
module-level sentinel `NOT_A_VALUE` (returned when the value is a
`FieldObject` and its text was inlined into the fragment). -/
inductive EvalVal where
  | val (v : PyVal)
  | NOT_A_VALUE

/-- FieldObject.eval from the source: `return self._value`. -/
def FieldObject.eval (f : FieldObject) : String := f.value

/-- Python `str.format` / `%s` rendering of the operator slot of an
`Operand`: the attribute holds either an operator string or `None`
(`'{} {} %s'.format(name, operator)` renders `None` as `"None"`). -/
def optStr : Option String → String
  | some s => s
  | none => "None"

/-- Operand from the source: one `{field_name} {operator} {value}` triple.
The `operator` attribute is `Option String` because
`parse_dict_condition` stores `cls.OPERATORS.get(keys[2])`, which is
`None` when the suffix of a 3-part key does not resolve. -/
structure Operand where
  name : String
  operator : Option String
  value : PyVal

/-- Operand.eval from the source: if the value is a `FieldObject`, its
evaluated text is substituted directly into the template (no placeholder)
and `NOT_A_VALUE` is returned; otherwise the fragment carries one `%s`
placeholder and the raw value is returned alongside. -/
def Operand.eval (o : Operand) : String × EvalVal :=
  match o.value with
  | .field f _ => (o.name ++ " " ++ optStr o.operator ++ " " ++ f.eval, .NOT_A_VALUE)
  | v => (o.name ++ " " ++ optStr o.operator ++ " %s", .val v)

/-- ConditionOperator.OPERATORS from the source, in declaration order. -/
def OPERATORS : List (String × String) :=
  [("eq", "="), ("gt", ">"), ("lt", "<"), ("gte", ">="), ("lte", "<="),
   ("neq", "!="), ("is", "IS"), ("is_not", "IS NOT"), ("in", "IN"),
   ("like", "LIKE"), ("ilike", "ILIKE"), ("similar_to", "SIMILAR TO")]

/-- Python `cls.OPERATORS.get(k)`: dictionary lookup returning `None` on a
missing key. -/
def OPERATORS.get (k : String) : Option String :=
  (OPERATORS.find? fun p => p.1 == k).map Prod.snd

/-- ConditionOperator.OP_SEPARATOR from the source. -/
def OP_SEPARATOR : String := "__"

/-- Python `key.split('__')` on the character list: leftmost,
non-overlapping split on the two-character separator, keeping empty
parts (so it never returns an empty list of parts). -/
def splitDunder : List Char → List (List Char)
  | '_' :: '_' :: rest => [] :: splitDunder rest
  | c :: rest =>
      match splitDunder rest with
      | p :: ps => (c :: p) :: ps
      | [] => [[c]]
  | [] => [[]]

/-- Python `key.split(cls.OP_SEPARATOR)` on strings. -/
def splitKey (s : String) : List String := (splitDunder s.data).map String.mk

/-- One `(key, value)` item of `parse_dict_condition`'s loop: resolves the
shorthand key into an `Operand`, or raises
`ValueError('Wrong condition operator in ...')` for a key of more than
three parts.  Note the 3-part case stores `cls.OPERATORS.get(keys[2])`
without checking it resolved (the 2-part case does check, via
`if not operator`). -/
def parseDictItem (key : String) (value : PyVal) : Except (String × PyVal) Operand :=
  match splitKey key with
  | [k] => .ok ⟨k, OPERATORS.get "eq", value⟩
  | [k1, k2] =>
      match OPERATORS.get k2 with
      | some op => .ok ⟨k1, some op, value⟩
      | none => .ok ⟨k1 ++ "." ++ k2, OPERATORS.get "eq", value⟩
  | [k1, k2, k3] => .ok ⟨k1 ++ "." ++ k2, OPERATORS.get k3, value⟩
  | _ => .error (key, value)

/-- ConditionOperator.parse_dict_condition from the source: folds the dict
items in insertion order into `Operand`s, failing at the first bad key.
(The local `values` list the source also builds is dead code and is not
modelled.) -/
def parse_dict_condition : List (String × PyVal) → Except (String × PyVal) (List Operand)
  | [] => .ok []
  | (k, v) :: rest =>
      match parseDictItem k v with
      | .ok op =>
          match parse_dict_condition rest with
          | .ok ops => .ok (op :: ops)
          | .error e => .error e
      | .error e => .error e

/-- ConditionOperator._expand_operands from the source: evaluates each
operand, collecting the sql tokens and the raw values (including the
`NOT_A_VALUE` sentinel, which is appended unconditionally). -/
def expand_operands : List Operand → List String × List EvalVal
  | [] => ([], [])
  | op :: rest =>
      let sv := Operand.eval op
      let tv := expand_operands rest
      (sv.1 :: tv.1, sv.2 :: tv.2)

/-- Entries accumulated in `parse_conditions`' shared `result` list: either a
pre-formed fragment string from a nested operator's `eval()`, or the token
list from a dict condition. -/
inductive SqlPart where
  | str (s : String)
  | toks (ts : List String)

/-- One element of the `result` list: `(sql_str, val_list)`. -/
abbrev Entry := SqlPart × List EvalVal

/-- The two concrete `ConditionOperator` subclasses. -/
inductive BoolOp where
  | And
  | Or

/- Condition trees as fed to `parse_conditions`, together with the shapes
it rejects. -/
mutual
/-- Condition tree node.  `op` is an `And`/`Or` instance holding its
`conditions` attribute (a tuple when constructed from positional args —
embedded as `Cond.seq` — or a dict when constructed from keyword args —
embedded as `Cond.dict`).  `qnode` is a `QueryObject` (which is an
`Evaluable` but NOT a `ConditionOperator` in the source) holding its
`condition` attribute.  `other` is any other Python value used as a
condition node. -/
inductive Cond where
  | dict (d : List (String × PyVal))
  | seq (cs : CondList)
  | op (k : BoolOp) (conds : Cond)
  | qnode (condition : Cond)
  | other (v : PyVal)

inductive CondList where
  | nil
  | cons (c : Cond) (cs : CondList)
end

/-- Embedding of plain `List Cond` into `CondList`. -/
def ofList : List Cond → CondList
  | [] => CondList.nil
  | c :: cs => CondList.cons c (ofList cs)

/-- Errors raised by condition parsing, carrying exactly the data the
source interpolates into the exception message:
`ValueError('Wrong condition operator in `{}: {}`'.format(key, value))`
and
`Exception('Unexpected error. Debug: conditions=%s (%s), result=%s' % (conditions, type(conditions), result))`. -/
inductive PgError where
  | valueError (key : String) (value : PyVal)
  | unexpected (conditions : Cond) (result : List Entry)

/-- Python `' OR '.join(...)` / `' AND '.join(...)` separator for each
operator variant. -/
def connective : BoolOp → String
  | .And => " AND "
  | .Or => " OR "

/-- Python `sep.join(strings)`. -/
def strJoin (sep : String) : List String → String
  | [] => ""
  | [s] => s
  | s :: rest => s ++ sep ++ strJoin sep rest

/-- Final flattening loop at the end of `parse_conditions`: a plain string
entry is appended as one token, a token-list entry is extended in, and
every entry's values are extended into the flat value list, in order. -/
def flattenEntries : List Entry → List String × List EvalVal
  | [] => ([], [])
  | (part, vals) :: rest =>
      let tv := flattenEntries rest
      (match part with
       | .str s => s :: tv.1
       | .toks ts => ts ++ tv.1,
       vals ++ tv.2)

/-- Fragment assembly in `And.eval` / `Or.eval`:
`' '.join(['(', connective.join(tokens), ')'])`. -/
def joinWrap (k : BoolOp) (tokens : List String) : String :=
  strJoin " " ["(", strJoin (connective k) tokens, ")"]

/- Recursive accumulation phase of `ConditionOperator.parse_conditions`,
with the mutated shared `result` list made explicit. -/
mutual
/-- Body of `parse_conditions(conditions, result)` restricted to its
mutation effect on `result`.  The source also recomputes the final
flattening at every recursive level and discards it for inner calls; only
the top-level flattening (see `parse_conditions` below) is observable, so
the discarded recomputations are not modelled. -/
def parseStep : Cond → List Entry → Except PgError (List Entry)
  | Cond.seq cs, result => parseSeq cs result
  | Cond.dict d, result =>
      match parse_dict_condition d with
      | .ok operands =>
          let tv := expand_operands operands
          .ok (result ++ [(SqlPart.toks tv.1, tv.2)])
      | .error e => .error (PgError.valueError e.1 e.2)
  | c, result => .error (PgError.unexpected c result)

/-- Loop of `parse_conditions` over a list/tuple of conditions.  A sequence
element that is a `ConditionOperator` is evaluated in place
(`val = cond.eval(); result.append(val)`) — its `eval` body
(`parse_conditions` on its own `conditions` followed by join-and-wrap) is
inlined here so that the recursion stays structural. -/
def parseSeq : CondList → List Entry → Except PgError (List Entry)
  | CondList.nil, result => .ok result
  | CondList.cons (Cond.op k conds) cs, result =>
      match parseStep conds [] with
      | .ok entries =>
          let tv := flattenEntries entries
          parseSeq cs (result ++ [(SqlPart.str (joinWrap k tv.1), tv.2)])
      | .error e => .error e
  | CondList.cons (Cond.seq cs2) cs, result =>
      match parseSeq cs2 result with
      | .ok r2 => parseSeq cs r2
      | .error e => .error e
  | CondList.cons (Cond.dict d) cs, result =>
      match parse_dict_condition d with
      | .ok operands =>
          let tv := expand_operands operands
          parseSeq cs (result ++ [(SqlPart.toks tv.1, tv.2)])
      | .error e => .error (PgError.valueError e.1 e.2)
  | CondList.cons c _, result => .error (PgError.unexpected c result)
end

/-- ConditionOperator.parse_conditions from the source, called with
`result=None`: accumulate entries into a fresh list, then flatten them
into `(tokens, values)`. -/
def parse_conditions (conditions : Cond) : Except PgError (List String × List EvalVal) :=
  match parseStep conditions [] with
  | .ok entries => .ok (flattenEntries entries)
  | .error e => .error e

/-- And.eval / Or.eval from the source: parse the node's `conditions`
attribute, join the tokens with the boolean connective, and wrap the
joined string in one pair of parentheses; the flat value list is returned
as a tuple alongside. -/
def condOpEval (k : BoolOp) (conds : Cond) : Except PgError (String × List EvalVal) :=
  match parse_conditions conds with
  | .ok tv => .ok (joinWrap k tv.1, tv.2)
  | .error e => .error e

/-- QueryObject (`Q`) from the source: wraps its keyword arguments in an
implicit `And`.  `And(kwargs)` passes the dict as one positional
argument, so the `And` node's `conditions` attribute is the one-element
tuple `(kwargs,)`. -/
structure QueryObject where
  condition : Cond

/-- The `Q(**kwargs)` constructor. -/
def Qmk (kwargs : List (String × PyVal)) : QueryObject :=
  ⟨Cond.op BoolOp.And (Cond.seq (ofList [Cond.dict kwargs]))⟩

/-- Values on which the source's `|` / `&` combinators can be attempted:
`QueryObject` instances and already-combined `And`/`Or` instances. -/
inductive Dyn where
  | qobj (q : QueryObject)
  | node (k : BoolOp) (conds : Cond)

/-- Python class name of a combinator operand, as it appears in
`TypeError`/`AttributeError` diagnostics. -/
def dynClassName : Dyn → String
  | .qobj _ => "QueryObject"
  | .node .And _ => "And"
  | .node .Or _ => "Or"

/-- Exceptions CPython raises for the `|` / `&` combinators on these
classes: `unsupported operand type(s)` when neither side defines the
operator, and `AttributeError` when `QueryObject.__or__`/`__and__`
accesses `other.condition` on a non-`QueryObject`. -/
inductive PyExn where
  | typeError (lhsClass rhsClass : String)
  | attributeError (objClass attr : String)

/-- Python `a | b` on the embedded classes.  Only `QueryObject` defines
`__or__` (returning `Or(self.condition, other.condition)` — an `Or` over
the two operands' trees); `And`/`Or` define neither `__or__` nor
`__ror__`, so a left operand that is an `And`/`Or` instance raises
`TypeError`, and a non-`QueryObject` right operand raises
`AttributeError` inside `__or__` (it has no `condition` attribute). -/
def pyOr : Dyn → Dyn → Except PyExn Dyn
  | .qobj a, .qobj b =>
      .ok (.node BoolOp.Or (Cond.seq (ofList [a.condition, b.condition])))
  | .qobj _, d => .error (.attributeError (dynClassName d) "condition")
  | d, d2 => .error (.typeError (dynClassName d) (dynClassName d2))

/-- Python `a & b` on the embedded classes, symmetric to `pyOr` with `And`. -/
def pyAnd : Dyn → Dyn → Except PyExn Dyn
  | .qobj a, .qobj b =>
      .ok (.node BoolOp.And (Cond.seq (ofList [a.condition, b.condition])))
  | .qobj _, d => .error (.attributeError (dynClassName d) "condition")
  | d, d2 => .error (.typeError (dynClassName d) (dynClassName d2))

/-- FieldObject.__add__ from the source:
`FieldObject('{} + {}'.format(self.eval(), other))` — the right-hand side
is stringified as-is by Python `str()`. -/
def FieldObject.add (f : FieldObject) (other : PyVal) : FieldObject :=
  ⟨f.eval ++ " + " ++ pyStr other⟩

/-- FieldObject.__sub__ from the source. -/
def FieldObject.sub (f : FieldObject) (other : PyVal) : FieldObject :=
  ⟨f.eval ++ " - " ++ pyStr other⟩

/-- FieldObject.__mul__ from the source. -/
def FieldObject.mul (f : FieldObject) (other : PyVal) : FieldObject :=
  ⟨f.eval ++ " * " ++ pyStr other⟩

/-- FieldObject.__truediv__ (and the identical `__div__`/`__floordiv__`)
from the source. -/
def FieldObject.truediv (f : FieldObject) (other : PyVal) : FieldObject :=
  ⟨f.eval ++ " / " ++ pyStr other⟩

/-- The `F` alias from the source (`F = FieldObject`): `F('total')`. -/
def F (name : String) : FieldObject := ⟨name⟩

/-- Rendering of the source's
`'Unexpected error. Debug: conditions=%s (%s), result=%s'` message for
the case where the offending node is a plain (non-tree) value and the
shared result list is still empty — i.e. the interpolations are
`str(value)`, `type(value)` and `str([])`. -/
def unexpectedMsgOther (v : PyVal) : String :=
  "Unexpected error. Debug: conditions=" ++ pyStr v ++ " (" ++ pyTypeName v ++ "), result=[]"

/-- Number of non-overlapping occurrences of the positional placeholder
`"%s"` in a character list, scanning left to right (the pattern cannot
overlap itself, so this is the plain substring-occurrence count). -/
def countPS : List Char → Nat
  | [] => 0
  | [_] => 0
  | c :: c2 :: rest =>
      if c = '%' ∧ c2 = 's' then countPS rest + 1 else countPS (c2 :: rest)

/-- Number of `%s` placeholders in a string. -/
def phCount (s : String) : Nat := countPS s.data

/-- Placeholders contributed by one accumulated `result` entry. -/
def partPH : SqlPart → Nat
  | .str s => phCount s
  | .toks ts => (ts.map phCount).sum

/-- Invariant of an accumulated `result` entry: its placeholder count
matches its value count and it carries no `NOT_A_VALUE` sentinel. -/
def entryOk (e : Entry) : Prop :=
  partPH e.1 = e.2.length ∧ ∀ x ∈ e.2, x ≠ EvalVal.NOT_A_VALUE

/- Cleanliness of a condition tree: no dict key contains the placeholder
text `%s` and no condition value is a `FieldObject`. -/
mutual
/-- Tree cleanliness: every dict in the tree has placeholder-free keys and
non-`FieldObject` values. -/
def condCleanB : Cond → Bool
  | .dict d => d.all fun kv => (phCount kv.1 == 0) && !kv.2.isField
  | .seq cs => listCleanB cs
  | .op _ conds => condCleanB conds
  | .qnode c => condCleanB c
  | .other _ => true

/-- Cleanliness of each member of a condition sequence. -/
def listCleanB : CondList → Bool
  | .nil => true
  | .cons c cs => condCleanB c && listCleanB cs
end

/-- Canonicalization of a condition value that forgets everything about
non-`FieldObject` values (they never reach the SQL fragment) while
keeping `FieldObject` values (whose text is inlined into the fragment). -/
def canonVal : PyVal → PyVal
  | .field f a => .field f a
  | _ => .int 0

/- Canonicalization of a condition tree: two trees have the same
canonicalization exactly when they have the same structure, the same
dict keys, and values that agree up to replacing one
non-`FieldObject` value by another. -/
mutual
/-- Tree canonicalization (see above). -/
def condCanon : Cond → Cond
  | .dict d => .dict (d.map fun kv => (kv.1, canonVal kv.2))
  | .seq cs => .seq (canonList cs)
  | .op k conds => .op k (condCanon conds)
  | .qnode c => .qnode (condCanon c)
  | .other v => .other (canonVal v)

/-- Canonicalization of each member of a condition sequence. -/
def canonList : CondList → CondList
  | .nil => .nil
  | .cons c cs => .cons (condCanon c) (canonList cs)
end

/-- Appending strings appends their character lists. -/
theorem strDataAppend (a b : String) : (a ++ b).data = a.data ++ b.data := rfl

/-- A cons cell headed by a character other than `%` holds the same number
of placeholders as its tail. -/
theorem countPS_cons_ne (c : Char) (cs : List Char) (h : c ≠ '%') :
    countPS (c :: cs) = countPS cs := by
  cases cs with
  | nil => rfl
  | cons c2 rest => simp [countPS, h]

/-- Consing a character cannot decrease the placeholder count. -/
theorem countPS_cons_le (c : Char) (cs : List Char) : countPS cs ≤ countPS (c :: cs) := by
  cases cs with
  | nil => simp [countPS]
  | cons c2 rest =>
      by_cases h : c = '%' ∧ c2 = 's'
      · obtain ⟨hc, hc2⟩ := h
        subst hc; subst hc2
        have h2 : countPS ('s' :: rest) = countPS rest :=
          countPS_cons_ne 's' rest (by decide)
        simp [countPS, h2]
      · simp [countPS, h]

/-- Placeholder counting distributes over append when the right part does
not begin with `s` (so no `%s` can straddle the boundary). -/
theorem countPS_append_of_ne_s (a b : List Char) (hb : ∀ b2, b ≠ 's' :: b2) :
    countPS (a ++ b) = countPS a + countPS b := by
  induction a using countPS.induct with
  | case1 => simp [countPS]
  | case2 c =>
      cases b with
      | nil => simp [countPS]
      | cons d bs =>
          have hd : ¬(c = '%' ∧ d = 's') := fun hcd => hb bs (by rw [hcd.2])
          simp [countPS, hd]
  | case3 c c2 rest h ih =>
      simp only [List.cons_append]
      simp [countPS, h, ih]
      omega
  | case4 c c2 rest h ih =>
      simp only [List.cons_append]
      simp only [countPS, if_neg h]
      rw [show c2 :: (rest ++ b) = (c2 :: rest) ++ b from rfl, ih]

/-- Prepending percent-free characters leaves the placeholder count of the
remainder unchanged. -/
theorem countPS_append_no_percent (a b : List Char) (ha : '%' ∉ a) :
    countPS (a ++ b) = countPS b := by
  induction a with
  | nil => rfl
  | cons c cs ih =>
      have hc : c ≠ '%' := fun h => ha (h ▸ List.mem_cons_self c cs)
      rw [List.cons_append, countPS_cons_ne _ _ hc,
        ih (fun h => ha (List.mem_cons_of_mem c h))]

/-- A percent-free character list holds no placeholders. -/
theorem countPS_eq_zero (a : List Char) (ha : '%' ∉ a) : countPS a = 0 := by
  have h := countPS_append_no_percent a [] ha
  simpa using h

/-- The right part of an append holds at most as many placeholders as the
whole. -/
theorem le_countPS_append_left (a b : List Char) : countPS b ≤ countPS (a ++ b) := by
  induction a with
  | nil => simp
  | cons c cs ih =>
      rw [List.cons_append]
      exact le_trans ih (countPS_cons_le _ _)

/-- The left part of an append holds at most as many placeholders as the
whole. -/
theorem le_countPS_append_right (a b : List Char) : countPS a ≤ countPS (a ++ b) := by
  induction a using countPS.induct with
  | case1 => simp [countPS]
  | case2 c =>
      have : countPS [c] = 0 := rfl
      simp [this]
  | case3 c c2 rest h ih =>
      simp only [List.cons_append]
      simp [countPS, h]
      omega
  | case4 c c2 rest h ih =>
      simp only [List.cons_append]
      simp only [countPS, if_neg h]
      rw [show c2 :: (rest ++ b) = (c2 :: rest) ++ b from rfl]
      exact ih

/-- Placeholder counting is monotone under the infix relation. -/
theorem countPS_le_of_infix (a b : List Char) (h : a <:+: b) : countPS a ≤ countPS b := by
  obtain ⟨s, t, rfl⟩ := h
  calc countPS a ≤ countPS (a ++ t) := le_countPS_append_right a t
    _ ≤ countPS (s ++ (a ++ t)) := le_countPS_append_left s (a ++ t)
    _ = countPS (s ++ a ++ t) := by rw [List.append_assoc]

/-- Every part produced by `splitDunder` occurs inside the original list:
the head part is a prefix and the rest are infixes. -/
theorem splitDunder_parts (l : List Char) :
    ∃ p ps, splitDunder l = p :: ps ∧ p <+: l ∧ ∀ q ∈ ps, q <:+: l := by
  induction l using splitDunder.induct with
  | case1 rest ih =>
      obtain ⟨p, ps, hs, hp, hq⟩ := ih
      refine ⟨[], splitDunder rest, by simp [splitDunder], List.nil_prefix, ?_⟩
      intro q hm
      rw [hs] at hm
      rcases List.mem_cons.mp hm with h1 | h2
      · exact List.infix_cons (List.infix_cons (h1 ▸ hp.isInfix))
      · exact List.infix_cons (List.infix_cons (hq q h2))
  | case2 c rest hne _ _ _ ih =>
      obtain ⟨p2, ps2, hs, hp, hq⟩ := ih
      have hsplit : splitDunder (c :: rest) = (c :: p2) :: ps2 := by
        rw [splitDunder.eq_def]
        split
        · next rest2 heq =>
            injection heq with h1 h2
            exact (hne rest2 h1 h2).elim
        · next c3 rest3 heq =>
            injection heq with h1 h2
            subst h1; subst h2
            rw [hs]
        · next heq => exact absurd heq (by simp)
      refine ⟨c :: p2, ps2, hsplit, ?_, ?_⟩
      · obtain ⟨t, ht⟩ := hp
        exact ⟨t, by rw [List.cons_append, ht]⟩
      · intro q hm
        exact List.infix_cons (hq q hm)
  | case3 c rest hne hempty ih =>
      obtain ⟨p, ps, hs, _, _⟩ := ih
      rw [hs] at hempty
      exact absurd hempty (by simp)
  | case4 => exact ⟨[], [], rfl, List.nil_prefix, by simp⟩

/-- Every part of a split key is an infix of the key. -/
theorem mem_splitDunder_infix (l q : List Char) (h : q ∈ splitDunder l) : q <:+: l := by
  obtain ⟨p, ps, hs, hp, hq⟩ := splitDunder_parts l
  rw [hs] at h
  rcases List.mem_cons.mp h with h1 | h2
  · exact h1 ▸ hp.isInfix
  · exact hq q h2

/-- Parts of a placeholder-free key are placeholder-free. -/
theorem phCount_splitKey (key : String) (h : phCount key = 0) (part : String)
    (hp : part ∈ splitKey key) : phCount part = 0 := by
  obtain ⟨pl, hmem, rfl⟩ := List.mem_map.mp hp
  have hinf : pl <:+: key.data := mem_splitDunder_infix _ _ hmem
  have hle := countPS_le_of_infix _ _ hinf
  have : countPS (String.mk pl).data = countPS pl := rfl
  unfold phCount at h ⊢
  omega

/-- Every operator string in the resolution table is placeholder-free. -/
theorem phCount_OPERATORS (s o : String) (h : OPERATORS.get s = some o) : phCount o = 0 := by
  unfold OPERATORS.get at h
  obtain ⟨p, hfind, rfl⟩ := Option.map_eq_some'.mp h
  have hmem := List.mem_of_find?_eq_some hfind
  have hall : ∀ q ∈ OPERATORS, phCount q.2 = 0 := by decide
  exact hall p hmem

/-- Evaluation of an operand with a non-`FieldObject` value: one
placeholder, value carried alongside. -/
theorem operandEval_nonfield (o : Operand) (h : o.value.isField = false) :
    Operand.eval o = (o.name ++ " " ++ optStr o.operator ++ " %s", EvalVal.val o.value) := by
  obtain ⟨n, opr, v⟩ := o
  cases v <;> first | rfl | simp [PyVal.isField] at h

/-- The value component of an operand evaluation: the sentinel exactly for
`FieldObject` values, the raw value otherwise. -/
theorem operandEval_snd (o : Operand) :
    (Operand.eval o).2 =
      if o.value.isField then EvalVal.NOT_A_VALUE else EvalVal.val o.value := by
  obtain ⟨n, opr, v⟩ := o
  cases v <;> rfl

/-- A fragment template `name op %s` built from placeholder-free name and
operator holds exactly one placeholder. -/
theorem phCount_token (n op : String) (hn : phCount n = 0) (ho : phCount op = 0) :
    phCount (n ++ " " ++ op ++ " %s") = 1 := by
  have hd : (n ++ " " ++ op ++ " %s").data = n.data ++ (' ' :: (op.data ++ [' ', '%', 's'])) := by
    rw [strDataAppend, strDataAppend, strDataAppend]
    have h1 : (" ").data = [' '] := rfl
    have h2 : (" %s").data = [' ', '%', 's'] := rfl
    rw [h1, h2, List.append_assoc, List.append_assoc]
    rfl
  unfold phCount at hn ho ⊢
  rw [hd]
  rw [countPS_append_of_ne_s _ _ (fun b2 hb => by injection hb with h1 _; exact absurd h1 (by decide))]
  rw [hn, countPS_cons_ne ' ' _ (by decide)]
  rw [countPS_append_of_ne_s _ _ (fun b2 hb => by injection hb with h1 _; exact absurd h1 (by decide))]
  rw [ho]
  rfl

/-- Joining two placeholder-free strings with a dot stays
placeholder-free. -/
theorem phCount_dot (a b : String) (ha : phCount a = 0) (hb : phCount b = 0) :
    phCount (a ++ "." ++ b) = 0 := by
  have hd : (a ++ "." ++ b).data = a.data ++ ('.' :: b.data) := by
    rw [strDataAppend, strDataAppend]
    have h1 : (".").data = ['.'] := rfl
    rw [h1, List.append_assoc]
    rfl
  unfold phCount at ha hb ⊢
  rw [hd]
  rw [countPS_append_of_ne_s _ _ (fun b2 hbe => by injection hbe with h1 _; exact absurd h1 (by decide))]
  rw [ha, countPS_cons_ne '.' _ (by decide), hb]

/-- The operand produced for a dict item carries the item's value
unchanged. -/
theorem parseDictItem_value (key : String) (v : PyVal) (op : Operand)
    (h : parseDictItem key v = .ok op) : op.value = v := by
  unfold parseDictItem at h
  split at h
  · injection h with h2; subst h2; rfl
  · split at h
    · injection h with h2; subst h2; rfl
    · injection h with h2; subst h2; rfl
  · injection h with h2; subst h2; rfl
  · exact absurd h (by simp)

/-- The operand produced for a placeholder-free dict key has a
placeholder-free name and operator slot. -/
theorem parseDictItem_counts (key : String) (v : PyVal) (op : Operand)
    (h : parseDictItem key v = .ok op) (hk : phCount key = 0) :
    phCount op.name = 0 ∧ phCount (optStr op.operator) = 0 := by
  unfold parseDictItem at h
  split at h
  · next k hsplit =>
      injection h with h2; subst h2
      refine ⟨phCount_splitKey key hk k (by rw [hsplit]; exact List.mem_singleton.mpr rfl), ?_⟩
      show phCount (optStr (OPERATORS.get "eq")) = 0
      decide
  · next k1 k2 hsplit =>
      have hm1 : k1 ∈ splitKey key := by rw [hsplit]; simp
      have hm2 : k2 ∈ splitKey key := by rw [hsplit]; simp
      split at h
      · next o2 hop =>
          injection h with h2; subst h2
          exact ⟨phCount_splitKey key hk k1 hm1, phCount_OPERATORS k2 o2 hop⟩
      · injection h with h2; subst h2
        refine ⟨phCount_dot k1 k2 (phCount_splitKey key hk k1 hm1)
          (phCount_splitKey key hk k2 hm2), ?_⟩
        show phCount (optStr (OPERATORS.get "eq")) = 0
        decide
  · next k1 k2 k3 hsplit =>
      have hm1 : k1 ∈ splitKey key := by rw [hsplit]; simp
      have hm2 : k2 ∈ splitKey key := by rw [hsplit]; simp
      injection h with h2; subst h2
      refine ⟨phCount_dot k1 k2 (phCount_splitKey key hk k1 hm1)
        (phCount_splitKey key hk k2 hm2), ?_⟩
      cases hop : OPERATORS.get k3 with
      | some o2 => simpa [optStr] using phCount_OPERATORS k3 o2 hop
      | none => simp [optStr]; decide
  · exact absurd h (by simp)

/-- Dict parsing succeeds exactly by resolving each item, in insertion
order. -/
theorem parse_dict_operands (d : List (String × PyVal)) (ops : List Operand)
    (h : parse_dict_condition d = .ok ops) :
    List.Forall₂ (fun kv op => parseDictItem kv.1 kv.2 = Except.ok op) d ops := by
  induction d generalizing ops with
  | nil =>
      unfold parse_dict_condition at h
      injection h with h2
      subst h2
      exact List.Forall₂.nil
  | cons kv rest ih =>
      obtain ⟨k, v⟩ := kv
      unfold parse_dict_condition at h
      split at h
      · next op hitem =>
          split at h
          · next ops2 hrest =>
              injection h with h2
              subst h2
              exact List.Forall₂.cons hitem (ih ops2 hrest)
          · exact absurd h (by simp)
      · exact absurd h (by simp)

/-- The token component of `_expand_operands` is the per-operand fragment
list, in order. -/
theorem expand_fst (ops : List Operand) :
    (expand_operands ops).1 = ops.map fun o => (Operand.eval o).1 := by
  induction ops with
  | nil => rfl
  | cons o rest ih => simp [expand_operands, ih]

/-- The value component of `_expand_operands` is the per-operand value
list, in order. -/
theorem expand_snd (ops : List Operand) :
    (expand_operands ops).2 = ops.map fun o => (Operand.eval o).2 := by
  induction ops with
  | nil => rfl
  | cons o rest ih => simp [expand_operands, ih]

/-- The value list a dict contributes: one entry per item in insertion
order — the `NOT_A_VALUE` sentinel for `FieldObject` values, the raw
value otherwise. -/
theorem parse_dict_values (d : List (String × PyVal)) (ops : List Operand)
    (h : parse_dict_condition d = .ok ops) :
    (expand_operands ops).2 = d.map fun kv =>
      if kv.2.isField then EvalVal.NOT_A_VALUE else EvalVal.val kv.2 := by
  rw [expand_snd]
  have hfa := parse_dict_operands d ops h
  clear h
  induction hfa with
  | nil => rfl
  | @cons kv op d2 ops2 hitem hrest ih =>
      simp only [List.map_cons]
      have hval : op.value = kv.2 := parseDictItem_value _ _ _ hitem
      rw [ih, operandEval_snd, hval]

/-- The entry a clean dict contributes to the shared result list satisfies
the placeholder/value invariant. -/
theorem dict_entry_ok (d : List (String × PyVal)) (ops : List Operand)
    (h : parse_dict_condition d = .ok ops)
    (hd : ∀ kv ∈ d, phCount kv.1 = 0 ∧ kv.2.isField = false) :
    entryOk (SqlPart.toks (expand_operands ops).1, (expand_operands ops).2) := by
  have hfa := parse_dict_operands d ops h
  clear h
  revert hd
  induction hfa with
  | nil => exact fun _ => ⟨rfl, by simp [expand_operands]⟩
  | @cons kv op d2 ops2 hitem hrest ih =>
      intro hd
      obtain ⟨hk0, hf0⟩ := hd kv (List.mem_cons_self kv d2)
      obtain ⟨ih1, ih2⟩ := ih (fun kv2 hm => hd kv2 (List.mem_cons_of_mem kv hm))
      have hval : op.value = kv.2 := parseDictItem_value _ _ _ hitem
      have hfield : op.value.isField = false := by rw [hval]; exact hf0
      have htok : phCount (Operand.eval op).1 = 1 := by
        obtain ⟨hn, ho⟩ := parseDictItem_counts _ _ _ hitem hk0
        rw [operandEval_nonfield op hfield]
        simpa using phCount_token op.name (optStr op.operator) hn ho
      constructor
      · show partPH (SqlPart.toks (expand_operands (op :: ops2)).1) =
          (expand_operands (op :: ops2)).2.length
        simp only [expand_operands, partPH, List.map_cons, List.sum_cons, List.length_cons]
        simp only [partPH] at ih1
        omega
      · intro x hx
        simp only [expand_operands] at hx
        rcases List.mem_cons.mp hx with hx | hx
        · subst hx
          rw [operandEval_snd, hfield]
          simp
        · exact ih2 x hx

/-- Flattening entries that each satisfy the invariant yields token and
value lists with matching placeholder/value counts and no sentinel. -/
theorem flatten_ok (es : List Entry) (he : ∀ e ∈ es, entryOk e) :
    ((flattenEntries es).1.map phCount).sum = (flattenEntries es).2.length ∧
    ∀ x ∈ (flattenEntries es).2, x ≠ EvalVal.NOT_A_VALUE := by
  induction es with
  | nil => exact ⟨rfl, by simp [flattenEntries]⟩
  | cons e rest ih =>
      obtain ⟨part, vals⟩ := e
      obtain ⟨h1, h2⟩ := he (part, vals) (List.mem_cons_self _ _)
      obtain ⟨ih1, ih2⟩ := ih (fun e2 hm => he e2 (List.mem_cons_of_mem _ hm))
      constructor
      · cases part with
        | str s =>
            simp only [flattenEntries, List.map_cons, List.sum_cons, List.length_append]
            simp only [partPH] at h1
            omega
        | toks ts =>
            simp only [flattenEntries, List.map_append, List.sum_append, List.length_append]
            simp only [partPH] at h1
            omega
      · intro x hx
        have hx2 : x ∈ vals ++ (flattenEntries rest).2 := by
          cases part <;> simpa [flattenEntries] using hx
        rcases List.mem_append.mp hx2 with hx3 | hx3
        · exact h2 x hx3
        · exact ih2 x hx3

/-- Placeholder counting distributes over a join whose separator begins
with a character other than `s` and contains no percent sign. -/
theorem phCount_strJoin (conn : String) (c0 : Char) (crest : List Char)
    (hc : conn.data = c0 :: crest) (h0 : c0 ≠ 's') (hm : '%' ∉ conn.data)
    (ts : List String) :
    phCount (strJoin conn ts) = (ts.map phCount).sum := by
  induction ts with
  | nil => rfl
  | cons t rest ih =>
      cases rest with
      | nil => simp [strJoin]
      | cons r rs =>
          show phCount (t ++ conn ++ strJoin conn (r :: rs)) = _
          unfold phCount
          rw [strDataAppend, strDataAppend, List.append_assoc]
          rw [countPS_append_of_ne_s _ _ ?hbne]
          case hbne =>
            intro b2 hbe
            rw [hc, List.cons_append] at hbe
            injection hbe with hh _
            exact h0 hh
          rw [countPS_append_no_percent _ _ hm]
          unfold phCount at ih
          rw [ih]
          simp [phCount]

/-- The wrapped-and-joined fragment of `And.eval`/`Or.eval` holds exactly
the placeholders of its tokens. -/
theorem phCount_joinWrap (k : BoolOp) (ts : List String) :
    phCount (joinWrap k ts) = (ts.map phCount).sum := by
  have hJ : phCount (strJoin (connective k) ts) = (ts.map phCount).sum := by
    cases k with
    | And => exact phCount_strJoin " AND " ' ' ['A', 'N', 'D', ' '] rfl (by decide) (by decide) ts
    | Or => exact phCount_strJoin " OR " ' ' ['O', 'R', ' '] rfl (by decide) (by decide) ts
  show phCount ("(" ++ " " ++ (strJoin (connective k) ts ++ " " ++ ")")) = _
  unfold phCount at hJ ⊢
  rw [strDataAppend, strDataAppend, strDataAppend, strDataAppend]
  have h1 : ("(").data = ['('] := rfl
  have h2 : (" ").data = [' '] := rfl
  have h3 : (")").data = [')'] := rfl
  rw [h1, h2, h3]
  rw [show (['('] ++ [' '] : List Char) = ['(', ' '] from rfl]
  rw [countPS_append_no_percent ['(', ' '] _ (by decide)]
  rw [countPS_append_of_ne_s _ [')'] (fun b2 hbe => by injection hbe with hh _; exact absurd hh (by decide))]
  rw [countPS_append_of_ne_s _ [' '] (fun b2 hbe => by injection hbe with hh _; exact absurd hh (by decide))]
  rw [hJ]
  rfl

/-- Cleanliness of a dict node, spelled out per item. -/
theorem dictCleanB_spec (d : List (String × PyVal)) (h : condCleanB (Cond.dict d) = true) :
    ∀ kv ∈ d, phCount kv.1 = 0 ∧ kv.2.isField = false := by
  simp only [condCleanB, List.all_eq_true, Bool.and_eq_true, beq_iff_eq,
    Bool.not_eq_true'] at h
  exact fun kv hm => h kv hm

/-- Cleanliness of a sequence decomposes over head and tail. -/
theorem listCleanB_cons (c : Cond) (cs : CondList) (h : listCleanB (CondList.cons c cs) = true) :
    condCleanB c = true ∧ listCleanB cs = true := by
  simpa [listCleanB, Bool.and_eq_true] using h

/-- Invariant of the accumulation phase of `parse_conditions`: on success
over a clean tree, every accumulated entry has matching placeholder and
value counts and carries no `NOT_A_VALUE` sentinel. -/
theorem parseStep_entries :
    ∀ (c : Cond) (r : List Entry), condCleanB c = true → (∀ e ∈ r, entryOk e) →
      ∀ r2 : List Entry, parseStep c r = Except.ok r2 → ∀ e ∈ r2, entryOk e := by
  intro c r
  induction c, r using parseStep.induct with
  | motive_2 cs r =>
      exact listCleanB cs = true → (∀ e ∈ r, entryOk e) →
        ∀ r2 : List Entry, parseSeq cs r = Except.ok r2 → ∀ e ∈ r2, entryOk e
  | case1 cs r ih => exact ih
  | case2 d r operands hops =>
      intro hc hr r2 h
      have hstep2 : parseStep (Cond.dict d) r = Except.ok
          (r ++ [(SqlPart.toks (expand_operands operands).1, (expand_operands operands).2)]) := by
        rw [parseStep, hops]
      rw [hstep2] at h
      injection h with h2
      subst h2
      intro e he
      rcases List.mem_append.mp he with he2 | he2
      · exact hr e he2
      · rw [List.mem_singleton.mp he2]
        exact dict_entry_ok d operands hops (dictCleanB_spec d hc)
  | case3 d r e herr =>
      intro hc hr r2 h
      rw [parseStep, herr] at h
      simp at h
  | case4 a b hnseq hndict =>
      intro hc hr r2 h
      rw [parseStep] at h
      exacts [by simp at h, hnseq, hndict]
  | case5 r =>
      intro hc hr r2 h
      rw [parseSeq] at h
      injection h with h2
      subst h2
      exact hr
  | case6 k conds cs r entries hstep tv ihconds ihrest =>
      intro hc hr r2 h
      obtain ⟨hc1, hc2⟩ := listCleanB_cons _ _ hc
      have hent := ihconds hc1 (by simp) entries hstep
      obtain ⟨hsum, hnov⟩ := flatten_ok entries hent
      have hnew : entryOk (SqlPart.str (joinWrap k (flattenEntries entries).1),
          (flattenEntries entries).2) := by
        refine ⟨?_, hnov⟩
        show phCount (joinWrap k (flattenEntries entries).1) = (flattenEntries entries).2.length
        rw [phCount_joinWrap]
        exact hsum
      have hstep2 : parseSeq (CondList.cons (Cond.op k conds) cs) r =
          parseSeq cs (r ++ [(SqlPart.str (joinWrap k (flattenEntries entries).1),
            (flattenEntries entries).2)]) := by
        rw [parseSeq, hstep]
      rw [hstep2] at h
      refine ihrest hc2 ?_ r2 h
      intro e he
      rcases List.mem_append.mp he with he2 | he2
      · exact hr e he2
      · rw [List.mem_singleton.mp he2]
        exact hnew
  | case7 k conds cs r e0 hstep ihconds =>
      intro hc hr r2 h
      rw [parseSeq, hstep] at h
      simp at h
  | case8 cs2 cs r rmid hseq ih1 ih2 =>
      intro hc hr r2 h
      obtain ⟨hc1, hc2⟩ := listCleanB_cons _ _ hc
      have hstep2 : parseSeq (CondList.cons (Cond.seq cs2) cs) r = parseSeq cs rmid := by
        rw [parseSeq, hseq]
      rw [hstep2] at h
      exact ih2 hc2 (ih1 hc1 hr rmid hseq) r2 h
  | case9 cs2 cs r e0 hseq ih1 =>
      intro hc hr r2 h
      rw [parseSeq, hseq] at h
      simp at h
  | case10 d cs r operands hops tv ih =>
      intro hc hr r2 h
      obtain ⟨hc1, hc2⟩ := listCleanB_cons _ _ hc
      have hstep2 : parseSeq (CondList.cons (Cond.dict d) cs) r =
          parseSeq cs (r ++ [(SqlPart.toks (expand_operands operands).1,
            (expand_operands operands).2)]) := by
        rw [parseSeq, hops]
      rw [hstep2] at h
      refine ih hc2 ?_ r2 h
      intro e he
      rcases List.mem_append.mp he with he2 | he2
      · exact hr e he2
      · rw [List.mem_singleton.mp he2]
        exact dict_entry_ok d operands hops (dictCleanB_spec d hc1)
  | case11 d cs r e0 herr =>
      intro hc hr r2 h
      rw [parseSeq, herr] at h
      simp at h
  | case12 a cs r hnop hnseq hndict =>
      intro hc hr r2 h
      rw [parseSeq] at h
      exacts [by simp at h, hnop, hnseq, hndict]

/-- Operands differing only in canonically-equal values produce the same
fragment token. -/
theorem evalFst_canon (n : String) (opr : Option String) (v1 v2 : PyVal)
    (hv : canonVal v1 = canonVal v2) :
    (Operand.eval ⟨n, opr, v1⟩).1 = (Operand.eval ⟨n, opr, v2⟩).1 := by
  cases v1 <;> cases v2 <;> simp_all [canonVal, Operand.eval, FieldObject.eval]

/-- Dict items with the same key and canonically-equal values resolve to
operands with the same fragment token. -/
theorem parseDictItem_canon (k : String) (v1 v2 : PyVal) (hv : canonVal v1 = canonVal v2)
    (op1 op2 : Operand) (h1 : parseDictItem k v1 = .ok op1)
    (h2 : parseDictItem k v2 = .ok op2) :
    (Operand.eval op1).1 = (Operand.eval op2).1 := by
  unfold parseDictItem at h1 h2
  rcases hsp : splitKey k with _ | ⟨a, _ | ⟨b, _ | ⟨c, _ | d⟩⟩⟩ <;> rw [hsp] at h1 h2 <;>
    simp only [] at h1 h2
  · simp at h1
  · injection h1 with e1
    injection h2 with e2
    subst e1; subst e2
    exact evalFst_canon _ _ _ _ hv
  · cases hob : OPERATORS.get b <;> rw [hob] at h1 h2
    · injection h1 with e1
      injection h2 with e2
      subst e1; subst e2
      exact evalFst_canon _ _ _ _ hv
    · injection h1 with e1
      injection h2 with e2
      subst e1; subst e2
      exact evalFst_canon _ _ _ _ hv
  · injection h1 with e1
    injection h2 with e2
    subst e1; subst e2
    exact evalFst_canon _ _ _ _ hv
  · simp at h1

/-- Dicts with the same keys (in order) and canonically-equal values
produce the same fragment token list. -/
theorem dict_tokens_canon (d1 d2 : List (String × PyVal))
    (hc : d1.map (fun kv => (kv.1, canonVal kv.2)) = d2.map (fun kv => (kv.1, canonVal kv.2)))
    (ops1 ops2 : List Operand)
    (h1 : parse_dict_condition d1 = .ok ops1) (h2 : parse_dict_condition d2 = .ok ops2) :
    (expand_operands ops1).1 = (expand_operands ops2).1 := by
  rw [expand_fst, expand_fst]
  have hfa1 := parse_dict_operands d1 ops1 h1
  have hfa2 := parse_dict_operands d2 ops2 h2
  clear h1 h2
  induction hfa1 generalizing d2 ops2 with
  | nil =>
      cases d2 with
      | nil => cases hfa2; rfl
      | cons kv2 rest2 => simp at hc
  | @cons kv op d1t ops1t hitem hrest ih =>
      cases d2 with
      | nil => simp at hc
      | cons kv2 rest2 =>
          cases hfa2 with
          | cons hitem2 hrest2 =>
              rename_i op2 ops2t
              simp only [List.map_cons] at hc ⊢
              injection hc with hchead hctail
              injection hchead with hk hcv
              rw [← hk] at hitem2
              rw [parseDictItem_canon kv.1 kv.2 kv2.2 hcv op op2 hitem hitem2,
                ih rest2 hctail ops2t hrest2]

/-- The token output of the flattening loop depends only on the fragment
components of the entries. -/
theorem flatten_fst_eq (e1 e2 : List Entry) (h : e1.map Prod.fst = e2.map Prod.fst) :
    (flattenEntries e1).1 = (flattenEntries e2).1 := by
  induction e1 generalizing e2 with
  | nil =>
      cases e2 with
      | nil => rfl
      | cons _ _ => simp at h
  | cons e rest ih =>
      cases e2 with
      | nil => simp at h
      | cons e2h rest2 =>
          simp only [List.map_cons] at h
          injection h with hh ht
          obtain ⟨p, v⟩ := e
          obtain ⟨p2, v2⟩ := e2h
          have hp : p = p2 := hh
          subst hp
          cases p <;> simp [flattenEntries, ih rest2 ht]

/-- Elimination form of a successful `And`/`Or` evaluation. -/
theorem condOpEval_ok_elim (k : BoolOp) (c : Cond) (f : String) (v : List EvalVal)
    (h : condOpEval k c = Except.ok (f, v)) :
    ∃ entries, parseStep c [] = Except.ok entries ∧
      f = joinWrap k (flattenEntries entries).1 ∧ v = (flattenEntries entries).2 := by
  unfold condOpEval parse_conditions at h
  cases hps : parseStep c [] with
  | error e => rw [hps] at h; simp at h
  | ok entries =>
      rw [hps] at h
      simp only [Except.ok.injEq, Prod.mk.injEq] at h
      exact ⟨entries, rfl, h.1.symm, h.2.symm⟩

/-- Fragment components of the accumulation phase depend only on the
canonicalization of the tree (i.e. on its structure, keys, and
`FieldObject` values — never on ordinary condition values). -/
theorem parseStep_canon :
    ∀ (c : Cond) (r : List Entry), ∀ (c2 : Cond) (r2 : List Entry),
      condCanon c = condCanon c2 → r.map Prod.fst = r2.map Prod.fst →
      ∀ o o2 : List Entry, parseStep c r = Except.ok o → parseStep c2 r2 = Except.ok o2 →
        o.map Prod.fst = o2.map Prod.fst := by
  intro c r
  induction c, r using parseStep.induct with
  | motive_2 cs r =>
      exact ∀ (cs2 : CondList) (r2 : List Entry),
        canonList cs = canonList cs2 → r.map Prod.fst = r2.map Prod.fst →
        ∀ o o2 : List Entry, parseSeq cs r = Except.ok o → parseSeq cs2 r2 = Except.ok o2 →
          o.map Prod.fst = o2.map Prod.fst
  | case1 cs r ih =>
      intro c2 r2 hcan hr o o2 h1 h2
      cases c2 with
      | seq cs2 =>
          simp only [condCanon] at hcan
          injection hcan with hcan2
          exact ih cs2 r2 hcan2 hr o o2 h1 h2
      | dict d2 => simp [condCanon] at hcan
      | op k2 conds2 => simp [condCanon] at hcan
      | qnode q2 => simp [condCanon] at hcan
      | other v2 => simp [condCanon] at hcan
  | case2 d r operands hops =>
      intro c2 r2 hcan hr o o2 h1 h2
      cases c2 with
      | dict d2 =>
          simp only [condCanon] at hcan
          injection hcan with hcan2
          have hst1 : parseStep (Cond.dict d) r = Except.ok
              (r ++ [(SqlPart.toks (expand_operands operands).1, (expand_operands operands).2)]) := by
            rw [parseStep, hops]
          rw [hst1] at h1
          injection h1 with h1e
          subst h1e
          cases hpd2 : parse_dict_condition d2 with
          | error e2 =>
              rw [parseStep, hpd2] at h2
              simp at h2
          | ok ops2 =>
              have hst2 : parseStep (Cond.dict d2) r2 = Except.ok
                  (r2 ++ [(SqlPart.toks (expand_operands ops2).1, (expand_operands ops2).2)]) := by
                rw [parseStep, hpd2]
              rw [hst2] at h2
              injection h2 with h2e
              subst h2e
              simp only [List.map_append, List.map_cons, List.map_nil]
              rw [hr, dict_tokens_canon d d2 hcan2 operands ops2 hops hpd2]
      | seq cs2 => simp [condCanon] at hcan
      | op k2 conds2 => simp [condCanon] at hcan
      | qnode q2 => simp [condCanon] at hcan
      | other v2 => simp [condCanon] at hcan
  | case3 d r e herr =>
      intro c2 r2 hcan hr o o2 h1 h2
      rw [parseStep, herr] at h1
      simp at h1
  | case4 a b hnseq hndict =>
      intro c2 r2 hcan hr o o2 h1 h2
      rw [parseStep] at h1
      exacts [by simp at h1, hnseq, hndict]
  | case5 r =>
      intro cs2 r2 hcan hr o o2 h1 h2
      cases cs2 with
      | nil =>
          rw [parseSeq] at h1 h2
          injection h1 with h1e
          injection h2 with h2e
          subst h1e
          subst h2e
          exact hr
      | cons c2h cs2t => simp [canonList] at hcan
  | case6 k conds cs r entries hstep tv ihconds ihrest =>
      intro cs2 r2 hcan hr o o2 h1 h2
      cases cs2 with
      | nil => simp [canonList] at hcan
      | cons c2h cs2t =>
          simp only [canonList] at hcan
          injection hcan with hchead hctail
          cases c2h with
          | op k2 conds2 =>
              simp only [condCanon] at hchead
              injection hchead with hk hconds
              subst hk
              have hst1 : parseSeq (CondList.cons (Cond.op k conds) cs) r =
                  parseSeq cs (r ++ [(SqlPart.str (joinWrap k (flattenEntries entries).1),
                    (flattenEntries entries).2)]) := by
                rw [parseSeq, hstep]
              rw [hst1] at h1
              cases hs2 : parseStep conds2 [] with
              | error e2 =>
                  rw [parseSeq, hs2] at h2
                  simp at h2
              | ok entries2 =>
                  have hst2 : parseSeq (CondList.cons (Cond.op k conds2) cs2t) r2 =
                      parseSeq cs2t (r2 ++ [(SqlPart.str (joinWrap k (flattenEntries entries2).1),
                        (flattenEntries entries2).2)]) := by
                    rw [parseSeq, hs2]
                  rw [hst2] at h2
                  have hment := ihconds conds2 [] hconds rfl entries entries2 hstep hs2
                  have htok := flatten_fst_eq entries entries2 hment
                  refine ihrest cs2t _ hctail ?_ o o2 h1 h2
                  simp only [List.map_append, List.map_cons, List.map_nil]
                  rw [hr, htok]
          | dict d2 => simp [condCanon] at hchead
          | seq s2 => simp [condCanon] at hchead
          | qnode q2 => simp [condCanon] at hchead
          | other v2 => simp [condCanon] at hchead
  | case7 k conds cs r e0 hstep ihconds =>
      intro cs2 r2 hcan hr o o2 h1 h2
      rw [parseSeq, hstep] at h1
      simp at h1
  | case8 csa csb r rmid hseq ih1 ih2 =>
      intro cs2 r2 hcan hr o o2 h1 h2
      cases cs2 with
      | nil => simp [canonList] at hcan
      | cons c2h cs2t =>
          simp only [canonList] at hcan
          injection hcan with hchead hctail
          cases c2h with
          | seq csa2 =>
              simp only [condCanon] at hchead
              injection hchead with hcsa
              have hst1 : parseSeq (CondList.cons (Cond.seq csa) csb) r = parseSeq csb rmid := by
                rw [parseSeq, hseq]
              rw [hst1] at h1
              cases hs2 : parseSeq csa2 r2 with
              | error e2 =>
                  rw [parseSeq, hs2] at h2
                  simp at h2
              | ok rmid2 =>
                  have hst2 : parseSeq (CondList.cons (Cond.seq csa2) cs2t) r2 =
                      parseSeq cs2t rmid2 := by
                    rw [parseSeq, hs2]
                  rw [hst2] at h2
                  exact ih2 cs2t rmid2 hctail (ih1 csa2 r2 hcsa hr rmid rmid2 hseq hs2) o o2 h1 h2
          | dict d2 => simp [condCanon] at hchead
          | op k2 conds2 => simp [condCanon] at hchead
          | qnode q2 => simp [condCanon] at hchead
          | other v2 => simp [condCanon] at hchead
  | case9 csa csb r e0 hseq ih1 =>
      intro cs2 r2 hcan hr o o2 h1 h2
      rw [parseSeq, hseq] at h1
      simp at h1
  | case10 d cs r operands hops tv ih =>
      intro cs2 r2 hcan hr o o2 h1 h2
      cases cs2 with
      | nil => simp [canonList] at hcan
      | cons c2h cs2t =>
          simp only [canonList] at hcan
          injection hcan with hchead hctail
          cases c2h with
          | dict d2 =>
              simp only [condCanon] at hchead
              injection hchead with hd
              have hst1 : parseSeq (CondList.cons (Cond.dict d) cs) r =
                  parseSeq cs (r ++ [(SqlPart.toks (expand_operands operands).1,
                    (expand_operands operands).2)]) := by
                rw [parseSeq, hops]
              rw [hst1] at h1
              cases hpd2 : parse_dict_condition d2 with
              | error e2 =>
                  rw [parseSeq, hpd2] at h2
                  simp at h2
              | ok ops2 =>
                  have hst2 : parseSeq (CondList.cons (Cond.dict d2) cs2t) r2 =
                      parseSeq cs2t (r2 ++ [(SqlPart.toks (expand_operands ops2).1,
                        (expand_operands ops2).2)]) := by
                    rw [parseSeq, hpd2]
                  rw [hst2] at h2
                  refine ih cs2t _ hctail ?_ o o2 h1 h2
                  simp only [List.map_append, List.map_cons, List.map_nil]
                  rw [hr, dict_tokens_canon d d2 hd operands ops2 hops hpd2]
          | seq s2 => simp [condCanon] at hchead
          | op k2 conds2 => simp [condCanon] at hchead
          | qnode q2 => simp [condCanon] at hchead
          | other v2 => simp [condCanon] at hchead
  | case11 d cs r e0 herr =>
      intro cs2 r2 hcan hr o o2 h1 h2
      rw [parseSeq, herr] at h1
      simp at h1
  | case12 a cs r hnop hnseq hndict =>
      intro cs2 r2 hcan hr o o2 h1 h2
      rw [parseSeq] at h1
      exacts [by simp at h1, hnop, hnseq, hndict]

-- Sanity checks of the embedding on the repository's own test expectations.

example :
    condOpEval BoolOp.And (Cond.dict [("name", PyVal.str "John"), ("visits__gte", PyVal.int 5)]) =
      .ok ("( name = %s AND visits >= %s )", [EvalVal.val (PyVal.str "John"), EvalVal.val (PyVal.int 5)]) := rfl

example :
    condOpEval BoolOp.And (Cond.dict [("a__in", PyVal.list [PyVal.str "val1", PyVal.str "val2"])]) =
      .ok ("( a IN %s )", [EvalVal.val (PyVal.list [PyVal.str "val1", PyVal.str "val2"])]) := rfl

example :
    (match pyOr (Dyn.qobj (Qmk [("name", PyVal.str "Mr.Robot")])) (Dyn.qobj (Qmk [("login", PyVal.str "anonymous")])) with
     | .ok (Dyn.node k conds) => condOpEval k conds
     | _ => .error (PgError.valueError "" (PyVal.int 0))) =
      .ok ("( ( name = %s ) OR ( login = %s ) )",
           [EvalVal.val (PyVal.str "Mr.Robot"), EvalVal.val (PyVal.str "anonymous")]) := rfl

/-- C1 counterexample.  An operand whose value is a `FieldObject` breaks
the placeholder/value alignment of the enclosing evaluation: the dict
condition `{'total': F('total') + 1}` evaluates to a fragment with zero
`%s` placeholders while the returned value sequence has one entry — the
`NOT_A_VALUE` sentinel, which `_expand_operands` appends
unconditionally. -/
theorem C1_counterexample :
    condOpEval BoolOp.And (Cond.dict [("total",
      PyVal.field (FieldObject.add (F "total") (PyVal.int 1)) 0)]) =
      .ok ("( total = total + 1 )", [EvalVal.NOT_A_VALUE]) ∧
    phCount "( total = total + 1 )" = 0 ∧
    ([EvalVal.NOT_A_VALUE] : List EvalVal).length = 1 :=
  ⟨rfl, rfl, rfl⟩

/-- C1 amended.  For every condition tree accepted by an `And`/`Or`
evaluation in which no condition value is a `FieldObject` and no dict key
contains the placeholder text `%s`, the number of `%s` placeholders in
the returned fragment equals the length of the returned value sequence
and no returned value is the `NOT_A_VALUE` sentinel; the values appear in
the order the evaluator emits them, which for a dict condition is the
dict's insertion order (each `FieldObject`-valued item contributing the
sentinel and every other item its raw value). -/
theorem C1_amended :
    (∀ (k : BoolOp) (conds : Cond) (frag : String) (vals : List EvalVal),
        condCleanB conds = true →
        condOpEval k conds = Except.ok (frag, vals) →
        phCount frag = vals.length ∧ ∀ x ∈ vals, x ≠ EvalVal.NOT_A_VALUE) ∧
    (∀ (d : List (String × PyVal)) (ts : List String) (vs : List EvalVal),
        parse_conditions (Cond.dict d) = Except.ok (ts, vs) →
        vs = d.map fun kv =>
          if kv.2.isField then EvalVal.NOT_A_VALUE else EvalVal.val kv.2) := by
  constructor
  · intro k conds frag vals hc h
    unfold condOpEval at h
    split at h
    · next tv hpc =>
        injection h with h2
        have hf : joinWrap k tv.1 = frag := congrArg Prod.fst h2
        have hv : tv.2 = vals := congrArg Prod.snd h2
        unfold parse_conditions at hpc
        split at hpc
        · next entries hps =>
            injection hpc with h3
            have hent := parseStep_entries conds [] hc (by simp) entries hps
            obtain ⟨hsum, hnov⟩ := flatten_ok entries hent
            subst h3
            constructor
            · rw [← hf, ← hv, phCount_joinWrap]
              exact hsum
            · rw [← hv]
              exact hnov
        · exact absurd hpc (by simp)
    · exact absurd h (by simp)
  · intro d ts vs h
    cases hpd : parse_dict_condition d with
    | error e =>
        have hthis : parse_conditions (Cond.dict d) = Except.error (PgError.valueError e.1 e.2) := by
          unfold parse_conditions
          rw [parseStep, hpd]
        rw [hthis] at h
        simp at h
    | ok ops =>
        have hpc : parse_conditions (Cond.dict d) = Except.ok
            ((expand_operands ops).1, (expand_operands ops).2) := by
          unfold parse_conditions
          rw [parseStep, hpd]
          simp [flattenEntries]
        rw [hpc] at h
        injection h with h2
        have hv : (expand_operands ops).2 = vs := congrArg Prod.snd h2
        rw [← hv]
        exact parse_dict_values d ops hpd

/-- C1 witness: the alignment theorem instantiated at the clean tree
`And({'a': 1}, Or({'b': 2}, {'c': 3}))`, and the value-order formula at
the dict `{'a': 7, 'b__gt': "x"}`. -/
theorem C1_witness :
    (phCount "( a = %s AND ( b = %s OR c = %s ) )" =
      ([EvalVal.val (PyVal.int 1), EvalVal.val (PyVal.int 2),
        EvalVal.val (PyVal.int 3)] : List EvalVal).length ∧
      ∀ x ∈ ([EvalVal.val (PyVal.int 1), EvalVal.val (PyVal.int 2),
        EvalVal.val (PyVal.int 3)] : List EvalVal), x ≠ EvalVal.NOT_A_VALUE) ∧
    ([EvalVal.val (PyVal.int 7), EvalVal.val (PyVal.str "x")] : List EvalVal) =
      ([("a", PyVal.int 7), ("b__gt", PyVal.str "x")] : List (String × PyVal)).map
        (fun kv => if kv.2.isField then EvalVal.NOT_A_VALUE else EvalVal.val kv.2) :=
  ⟨C1_amended.1 BoolOp.And
      (Cond.seq (ofList
        [Cond.dict [("a", PyVal.int 1)],
         Cond.op BoolOp.Or (Cond.seq (ofList
           [Cond.dict [("b", PyVal.int 2)], Cond.dict [("c", PyVal.int 3)]]))]))
      "( a = %s AND ( b = %s OR c = %s ) )"
      [EvalVal.val (PyVal.int 1), EvalVal.val (PyVal.int 2), EvalVal.val (PyVal.int 3)]
      rfl rfl,
   C1_amended.2 [("a", PyVal.int 7), ("b__gt", PyVal.str "x")]
      ["a = %s", "b > %s"] [EvalVal.val (PyVal.int 7), EvalVal.val (PyVal.str "x")] rfl⟩

/-- C3 counterexample.  A `FieldObject`-valued operand does NOT contribute
zero entries to the value sequence of the enclosing `And` evaluation: it
contributes exactly one entry, the `NOT_A_VALUE` sentinel itself, which
`_expand_operands` appends unconditionally. -/
theorem C3_counterexample :
    condOpEval BoolOp.And (Cond.dict [("balance",
      PyVal.field (FieldObject.add (F "balance") (PyVal.int 1)) 0x55d2c0)]) =
      .ok ("( balance = balance + 1 )", [EvalVal.NOT_A_VALUE]) ∧
    ([EvalVal.NOT_A_VALUE] : List EvalVal).length ≠ 0 :=
  ⟨rfl, by decide⟩

/-- C3 amended.  When an operand's value is a `FieldObject`, its
evaluation inlines the reference's own text into the fragment with no
placeholder and yields the `NOT_A_VALUE` marker —
`Operand('total', '=', F('total') + 1)` evaluates to
`("total = total + 1", NOT_A_VALUE)` — but such an operand contributes
exactly ONE entry, the sentinel itself, to the value sequence returned by
the enclosing `And`/`Or` evaluation (the general per-item value formula
is stated for any dict). -/
theorem C3_amended :
    (∀ (n : String) (opr : Option String) (f : FieldObject) (addr : Nat),
        Operand.eval ⟨n, opr, PyVal.field f addr⟩ =
          (n ++ " " ++ optStr opr ++ " " ++ f.value, EvalVal.NOT_A_VALUE)) ∧
    (∀ (d : List (String × PyVal)) (ops : List Operand),
        parse_dict_condition d = Except.ok ops →
        (expand_operands ops).2 = d.map fun kv =>
          if kv.2.isField then EvalVal.NOT_A_VALUE else EvalVal.val kv.2) ∧
    Operand.eval ⟨"total", some "=",
        PyVal.field (FieldObject.add (F "total") (PyVal.int 1)) 0⟩ =
      ("total = total + 1", EvalVal.NOT_A_VALUE) :=
  ⟨fun _ _ _ _ => rfl, fun d ops h => parse_dict_values d ops h, rfl⟩

/-- C3 witness: the per-dict value formula instantiated at a dict mixing a
`FieldObject` value and an ordinary value. -/
theorem C3_witness :
    (expand_operands [⟨"t", some "=", PyVal.field ⟨"x"⟩ 3⟩,
        ⟨"u", some "=", PyVal.int 9⟩]).2 =
      [EvalVal.NOT_A_VALUE, EvalVal.val (PyVal.int 9)] :=
  (C3_amended.2.1 [("t", PyVal.field ⟨"x"⟩ 3), ("u", PyVal.int 9)]
    [⟨"t", some "=", PyVal.field ⟨"x"⟩ 3⟩, ⟨"u", some "=", PyVal.int 9⟩] rfl).trans rfl

/-- C2 counterexample.  Evaluating the literal tree
`And({'a': 1}, Or(Q(b=2), Q(c=3)))` does not return the claimed fragment:
`QueryObject` is not a `ConditionOperator`, so when `parse_conditions`
iterates over the `Or` node's conditions it recurses into each
`QueryObject`, which is neither list/tuple nor dict, and raises the
source's `Exception('Unexpected error. Debug: ...')` carrying the first
`Q` node and the (empty) result list. -/
theorem C2_counterexample :
    condOpEval BoolOp.And (Cond.seq (ofList
      [Cond.dict [("a", PyVal.int 1)],
       Cond.op BoolOp.Or (Cond.seq (ofList
         [Cond.qnode (Qmk [("b", PyVal.int 2)]).condition,
          Cond.qnode (Qmk [("c", PyVal.int 3)]).condition]))])) =
      .error (PgError.unexpected (Cond.qnode (Qmk [("b", PyVal.int 2)]).condition) []) ∧
    condOpEval BoolOp.And (Cond.seq (ofList
      [Cond.dict [("a", PyVal.int 1)],
       Cond.op BoolOp.Or (Cond.seq (ofList
         [Cond.qnode (Qmk [("b", PyVal.int 2)]).condition,
          Cond.qnode (Qmk [("c", PyVal.int 3)]).condition]))])) ≠
      .ok ("( a = %s AND ( b = %s OR c = %s ) )",
           [EvalVal.val (PyVal.int 1), EvalVal.val (PyVal.int 2), EvalVal.val (PyVal.int 3)]) :=
  ⟨rfl, fun h => Except.noConfusion h⟩

/-- C2 amended.  With the two inner `Q` objects replaced by their plain
dict conditions, `And({'a': 1}, Or({'b': 2}, {'c': 3}))` evaluates to
exactly the claimed fragment `"( a = %s AND ( b = %s OR c = %s ) )"` with
values `(1, 2, 3)` in that order. -/
theorem C2_amended :
    condOpEval BoolOp.And (Cond.seq (ofList
      [Cond.dict [("a", PyVal.int 1)],
       Cond.op BoolOp.Or (Cond.seq (ofList
         [Cond.dict [("b", PyVal.int 2)], Cond.dict [("c", PyVal.int 3)]]))])) =
      .ok ("( a = %s AND ( b = %s OR c = %s ) )",
           [EvalVal.val (PyVal.int 1), EvalVal.val (PyVal.int 2), EvalVal.val (PyVal.int 3)]) := rfl

/-- C4 counterexample.  `Q(a=1) | Q(b=2)` evaluates fine, but
`Or(Q(a=1), Q(b=2))` — the `Or` applied to the two `QueryObject`s
themselves — raises the source's unexpected-condition `Exception`,
because `QueryObject` is not a `ConditionOperator`; so the two
construction routes are not equivalent. -/
theorem C4_counterexample :
    condOpEval BoolOp.Or (Cond.seq (ofList
      [Cond.qnode (Qmk [("a", PyVal.int 1)]).condition,
       Cond.qnode (Qmk [("b", PyVal.int 2)]).condition])) =
      .error (PgError.unexpected (Cond.qnode (Qmk [("a", PyVal.int 1)]).condition) []) :=
  rfl

/-- C4 amended.  `Q(a=1) | Q(b=2)` builds `Or` over the two operands'
underlying `And` trees (`self.condition` / `other.condition`), and that
`Or` evaluates to `("( ( a = %s ) OR ( b = %s ) )", (1, 2))`; it is
`Or(Q(a=1).condition, Q(b=2).condition)`, not `Or(Q(a=1), Q(b=2))`, that
the combinator route coincides with. -/
theorem C4_amended :
    pyOr (Dyn.qobj (Qmk [("a", PyVal.int 1)])) (Dyn.qobj (Qmk [("b", PyVal.int 2)])) =
      .ok (Dyn.node BoolOp.Or (Cond.seq (ofList
        [(Qmk [("a", PyVal.int 1)]).condition, (Qmk [("b", PyVal.int 2)]).condition]))) ∧
    condOpEval BoolOp.Or (Cond.seq (ofList
      [(Qmk [("a", PyVal.int 1)]).condition, (Qmk [("b", PyVal.int 2)]).condition])) =
      .ok ("( ( a = %s ) OR ( b = %s ) )",
           [EvalVal.val (PyVal.int 1), EvalVal.val (PyVal.int 2)]) :=
  ⟨rfl, rfl⟩

/-- C5 counterexample.  `(Q(a=1) | Q(b=2)) | Q(c=3)` does not produce an
evaluable tree: `Q | Q` returns an `Or` instance, and neither
`ConditionOperator` nor its subclasses define `__or__` (nor does
`QueryObject` define `__ror__`), so the second `|` raises
`TypeError: unsupported operand type(s) for |: 'Or' and 'QueryObject'`. -/
theorem C5_counterexample :
    (pyOr (Dyn.qobj (Qmk [("a", PyVal.int 1)])) (Dyn.qobj (Qmk [("b", PyVal.int 2)]))).bind
        (fun l => pyOr l (Dyn.qobj (Qmk [("c", PyVal.int 3)]))) =
      .error (PyExn.typeError "Or" "QueryObject") := rfl

/-- C5 amended.  `|` on two `Q` values builds an `Or` over the two
operands' trees (their `condition` attributes, not their evaluated
fragments), and `&` symmetrically builds an `And`; the resulting tree
evaluates successfully.  But `|`/`&` are NOT defined on already-combined
trees: whenever the left operand is an `And`/`Or` instance the combinator
raises `TypeError`, so repeated chaining such as
`(Q(a=1) | Q(b=2)) | Q(c=3)` fails rather than producing a deeper tree. -/
theorem C5_amended :
    (∀ q1 q2 : QueryObject,
        pyOr (Dyn.qobj q1) (Dyn.qobj q2) =
          .ok (Dyn.node BoolOp.Or (Cond.seq (ofList [q1.condition, q2.condition])))) ∧
    (∀ q1 q2 : QueryObject,
        pyAnd (Dyn.qobj q1) (Dyn.qobj q2) =
          .ok (Dyn.node BoolOp.And (Cond.seq (ofList [q1.condition, q2.condition])))) ∧
    (∀ (k : BoolOp) (c : Cond) (d : Dyn),
        pyOr (Dyn.node k c) d =
          .error (PyExn.typeError (dynClassName (Dyn.node k c)) (dynClassName d))) ∧
    (∀ (k : BoolOp) (c : Cond) (d : Dyn),
        pyAnd (Dyn.node k c) d =
          .error (PyExn.typeError (dynClassName (Dyn.node k c)) (dynClassName d))) ∧
    condOpEval BoolOp.Or (Cond.seq (ofList
      [(Qmk [("a", PyVal.int 1)]).condition, (Qmk [("b", PyVal.int 2)]).condition])) =
      .ok ("( ( a = %s ) OR ( b = %s ) )",
           [EvalVal.val (PyVal.int 1), EvalVal.val (PyVal.int 2)]) :=
  ⟨fun _ _ => rfl, fun _ _ => rfl, fun _ _ _ => rfl, fun _ _ _ => rfl, rfl⟩

/-- C7 code behavior at the failing input.  A 3-part key whose operator
suffix does not resolve is NOT a hard error: `parse_dict_condition`
stores `cls.OPERATORS.get(keys[2])` — which is `None` — without the
`if not operator` check the 2-part case performs, producing
`Operand('table.field', None, 1)`, which then evaluates to the fragment
`"table.field None %s"`.  (A resolving 3-part suffix works as described:
`{'table__field__gte': 5}` gives `"table.field >= %s"`.) -/
theorem C7_code_behavior :
    parse_dict_condition [("table__field__bogus", PyVal.int 1)] =
      .ok [⟨"table.field", none, PyVal.int 1⟩] ∧
    parse_conditions (Cond.dict [("table__field__bogus", PyVal.int 1)]) =
      .ok (["table.field None %s"], [EvalVal.val (PyVal.int 1)]) ∧
    parse_conditions (Cond.dict [("table__field__gte", PyVal.int 5)]) =
      .ok (["table.field >= %s"], [EvalVal.val (PyVal.int 5)]) :=
  ⟨rfl, rfl, rfl⟩

/-- C8.  A condition node that is neither a list/tuple, nor a dict, nor a
`ConditionOperator` tree node makes `parse_conditions` raise the
source's `Exception('Unexpected error. Debug: conditions=%s (%s),
result=%s')`, whose payload carries the offending node and the result
list; the interpolations name the offending value (`str(value)`) and its
type (`type(value)`).  In particular an integer node `5` fails with the
diagnostic `"Unexpected error. Debug: conditions=5 (<class 'int'>),
result=[]"`. -/
theorem C8_unsupported_node :
    (∀ v : PyVal, parse_conditions (Cond.other v) =
        .error (PgError.unexpected (Cond.other v) [])) ∧
    parse_conditions (Cond.other (PyVal.int 5)) =
      .error (PgError.unexpected (Cond.other (PyVal.int 5)) []) ∧
    unexpectedMsgOther (PyVal.int 5) =
      "Unexpected error. Debug: conditions=5 (<class \x27int\x27>), result=[]" :=
  ⟨fun _ => rfl, rfl, rfl⟩

/-- C6.  For each of the 12 defined operator suffixes, the dict condition
`{'field__suffix': v}` (with a non-`FieldObject` value `v`) evaluates to
the single token `"field <SQL_OP> %s"` with the value sequence `(v,)`,
and a bare key defaults to `eq`: `{'a': v}` evaluates identically to
`{'a__eq': v}`. -/
theorem C6_operator_table (v : PyVal) (hv : v.isField = false) :
    parse_conditions (Cond.dict [("field__eq", v)]) = .ok (["field = %s"], [EvalVal.val v]) ∧
    parse_conditions (Cond.dict [("field__gt", v)]) = .ok (["field > %s"], [EvalVal.val v]) ∧
    parse_conditions (Cond.dict [("field__lt", v)]) = .ok (["field < %s"], [EvalVal.val v]) ∧
    parse_conditions (Cond.dict [("field__gte", v)]) = .ok (["field >= %s"], [EvalVal.val v]) ∧
    parse_conditions (Cond.dict [("field__lte", v)]) = .ok (["field <= %s"], [EvalVal.val v]) ∧
    parse_conditions (Cond.dict [("field__neq", v)]) = .ok (["field != %s"], [EvalVal.val v]) ∧
    parse_conditions (Cond.dict [("field__is", v)]) = .ok (["field IS %s"], [EvalVal.val v]) ∧
    parse_conditions (Cond.dict [("field__is_not", v)]) = .ok (["field IS NOT %s"], [EvalVal.val v]) ∧
    parse_conditions (Cond.dict [("field__in", v)]) = .ok (["field IN %s"], [EvalVal.val v]) ∧
    parse_conditions (Cond.dict [("field__like", v)]) = .ok (["field LIKE %s"], [EvalVal.val v]) ∧
    parse_conditions (Cond.dict [("field__ilike", v)]) = .ok (["field ILIKE %s"], [EvalVal.val v]) ∧
    parse_conditions (Cond.dict [("field__similar_to", v)]) =
      .ok (["field SIMILAR TO %s"], [EvalVal.val v]) ∧
    parse_conditions (Cond.dict [("a", v)]) = parse_conditions (Cond.dict [("a__eq", v)]) := by
  cases v with
  | field f addr => simp [PyVal.isField] at hv
  | int n => exact ⟨rfl, rfl, rfl, rfl, rfl, rfl, rfl, rfl, rfl, rfl, rfl, rfl, rfl⟩
  | str s => exact ⟨rfl, rfl, rfl, rfl, rfl, rfl, rfl, rfl, rfl, rfl, rfl, rfl, rfl⟩
  | bool b => exact ⟨rfl, rfl, rfl, rfl, rfl, rfl, rfl, rfl, rfl, rfl, rfl, rfl, rfl⟩
  | list vs => exact ⟨rfl, rfl, rfl, rfl, rfl, rfl, rfl, rfl, rfl, rfl, rfl, rfl, rfl⟩

/-- C6 witness: the operator-table theorem instantiated at the concrete
value `1`. -/
theorem C6_witness :
    parse_conditions (Cond.dict [("field__similar_to", PyVal.int 1)]) =
      .ok (["field SIMILAR TO %s"], [EvalVal.val (PyVal.int 1)]) ∧
    parse_conditions (Cond.dict [("a", PyVal.int 1)]) =
      parse_conditions (Cond.dict [("a__eq", PyVal.int 1)]) :=
  ⟨(C6_operator_table (PyVal.int 1) rfl).2.2.2.2.2.2.2.2.2.2.2.1,
   (C6_operator_table (PyVal.int 1) rfl).2.2.2.2.2.2.2.2.2.2.2.2⟩

/-- C10.  Non-`FieldObject` condition values are never inlined as literal
text into the returned SQL fragment: any two condition trees with the
same canonicalization — same structure, same dict keys in the same
order, same `FieldObject` values, but arbitrary other values — that both
evaluate successfully produce the SAME fragment string; the values are
carried only in the separate bound-value sequence. -/
theorem C10_fragment_noninterference :
    ∀ (k : BoolOp) (c1 c2 : Cond) (f1 f2 : String) (v1 v2 : List EvalVal),
      condCanon c1 = condCanon c2 →
      condOpEval k c1 = Except.ok (f1, v1) →
      condOpEval k c2 = Except.ok (f2, v2) →
      f1 = f2 := by
  intro k c1 c2 f1 f2 v1 v2 hc h1 h2
  obtain ⟨e1, hps1, hf1, _⟩ := condOpEval_ok_elim k c1 f1 v1 h1
  obtain ⟨e2, hps2, hf2, _⟩ := condOpEval_ok_elim k c2 f2 v2 h2
  have hm := parseStep_canon c1 [] c2 [] hc rfl e1 e2 hps1 hps2
  rw [hf1, hf2, flatten_fst_eq e1 e2 hm]

/-- C10 witness: two dict trees with the same key and different ordinary
values (an integer vs an injection-attempt string) both evaluate, to the
same fragment, with the values only in the value sequence. -/
theorem C10_witness :
    condCanon (Cond.dict [("a", PyVal.int 1)]) =
      condCanon (Cond.dict [("a", PyVal.str "x; DROP TABLE users")]) ∧
    condOpEval BoolOp.And (Cond.dict [("a", PyVal.int 1)]) =
      Except.ok ("( a = %s )", [EvalVal.val (PyVal.int 1)]) ∧
    condOpEval BoolOp.And (Cond.dict [("a", PyVal.str "x; DROP TABLE users")]) =
      Except.ok ("( a = %s )", [EvalVal.val (PyVal.str "x; DROP TABLE users")]) ∧
    "( a = %s )" = "( a = %s )" :=
  ⟨rfl, rfl, rfl,
   C10_fragment_noninterference BoolOp.And
     (Cond.dict [("a", PyVal.int 1)]) (Cond.dict [("a", PyVal.str "x; DROP TABLE users")])
     "( a = %s )" "( a = %s )"
     [EvalVal.val (PyVal.int 1)] [EvalVal.val (PyVal.str "x; DROP TABLE users")]
     rfl rfl rfl⟩

/-- C9 counterexample.  `F('a') + F('b')` does not have text `"a + b"`:
`FieldObject` defines no `__str__`/`__repr__`, so the right-hand side is
stringified with CPython's default object rendering
`<pg_requests.operators.FieldObject object at 0x...>`, shown here at a
concrete object address. -/
theorem C9_counterexample :
    (FieldObject.add (F "a") (PyVal.field (F "b") 0x7f35a2c41d30)).value ≠ "a + b" := by
  decide

/-- C9 amended.  Each arithmetic combinator returns a new `FieldObject`
whose text is `"<left text> <op> <str(right)>"` with the right side
stringified as-is, so `F('a') + 1` has text `"a + 1"`; but
`F('a') + F('b')` does NOT yield `"a + b"` at any object address,
because a `FieldObject`'s stringification is the default
`<pg_requests.operators.FieldObject object at 0x...>` rendering, not its
own text. -/
theorem C9_amended :
    (∀ (f : FieldObject) (o : PyVal),
        (FieldObject.add f o).value = f.value ++ " + " ++ pyStr o ∧
        (FieldObject.sub f o).value = f.value ++ " - " ++ pyStr o ∧
        (FieldObject.mul f o).value = f.value ++ " * " ++ pyStr o ∧
        (FieldObject.truediv f o).value = f.value ++ " / " ++ pyStr o) ∧
    (FieldObject.add (F "a") (PyVal.int 1)).value = "a + 1" ∧
    (∀ (g : FieldObject) (addr : Nat),
        (FieldObject.add (F "a") (PyVal.field g addr)).value ≠ "a + b") := by
  refine ⟨fun f o => ⟨rfl, rfl, rfl, rfl⟩, rfl, fun g addr h => ?_⟩
  have h2 : ("a" ++ " + " ++
      ("<pg_requests.operators.FieldObject object at 0x" ++ natHex addr ++ ">")).length =
      ("a + b").length := congrArg String.length h
  simp only [String.length_append] at h2
  have e1 : ("a").length = 1 := rfl
  have e2 : (" + ").length = 3 := rfl
  have e3 : ("<pg_requests.operators.FieldObject object at 0x").length = 47 := rfl
  have e4 : (">").length = 1 := rfl
  have e5 : ("a + b").length = 5 := rfl
  omega

end PgRequests
